import Mathlib

/-!
Verification development for the BGA_DATA_Cleaner pipeline.

The pipeline's stages are shallowly embedded over lists:
* Step 1 (Schema Normalizer): the "8-8" day-boundary rule of
  `_process_datetime_columns` (file `步骤1_重新开始.py`).
* Step 2 (Cohort Filter): row deletion by excluded `admission_key`
  (`exclude_patients_from_all_files`, file `步骤2_StudyCohort筛选.py`).
* Step 3 (Medication features): `extract_medication_features`
  (file `步骤3_药物医嘱整理.py`).
* Step 4 (Comorbidity features): `extract_comorbidities` and
  `add_comorbidities_to_original` (file `步骤4_合并症提取.py`).
* Step 6 (Fasting/nutrition): `calculate_time_diff_hours` and
  `extract_fasting_nutrition` (file `步骤6_禁食营养提取.py`).
* Step 7 (Daily aggregation and labeling): `process_glucose_data`,
  `classify_outcome`, boundary trimming and the binarized view
  (file `步骤7_拼接时序大表.py`).

Timestamps are modelled as whole minutes on a linear time axis; calendar
dates as serial day numbers, with `daysFromCivil` converting a Gregorian
date to its serial number.  Glucose values (Python floats) are modelled
as rationals.
-/

namespace BGA

/-! ### Step 1: the "8-8" day-boundary rule -/

/-- Hour-of-day component of a timestamp given in minutes
(source: `df[col].dt.hour`). -/
def hourOf (t : Nat) : Nat := t / 60 % 24

/-- Truncation of a timestamp (minutes) to its serial calendar day
(source: `df[col].dt.strftime('%Y-%m-%d')`). -/
def dayOf (t : Nat) : Nat := t / 1440

/-- Embeds the per-value transform of `_process_datetime_columns`
(`步骤1_重新开始.py` lines 216-220): values whose hour component is `< 8`
have one day (1440 minutes) subtracted, then every value is truncated to
its calendar day. -/
def applyDayBoundary (t : Nat) : Nat :=
  dayOf (if hourOf t < 8 then t - 1440 else t)

/-- Serial day number of a Gregorian calendar date (days counted from
0000-03-01, standard civil-from-days arithmetic).  Used to state the
concrete examples of the day-boundary rule. -/
def daysFromCivil (y m d : Nat) : Nat :=
  let yAdj := if m ≤ 2 then y - 1 else y
  let era := yAdj / 400
  let yoe := yAdj % 400
  let mp := if 2 < m then m - 3 else m + 9
  let doy := (153 * mp + 2) / 5 + d - 1
  let doe := yoe * 365 + yoe / 4 - yoe / 100 + doy
  era * 146097 + doe

/-- Minutes-since-epoch of a Gregorian date plus a time of day. -/
def civilMinutes (y m d hh mm : Nat) : Nat :=
  daysFromCivil y m d * 1440 + hh * 60 + mm

/-! ### Step 2: Cohort Filter -/

/-- One row of a canonical domain table: the synthesized episode key plus
the remaining delimited fields. -/
structure TableRow where
  admission_key : String
  fields : List String
deriving DecidableEq

/-- Embeds the per-file deletion of `exclude_patients_from_all_files`
(`步骤2_StudyCohort筛选.py` line 127):
`df[~df['admission_key'].isin(excluded_patients)]`. -/
def excludeRows (excluded : List String) (t : List TableRow) : List TableRow :=
  t.filter fun r => !(excluded.contains r.admission_key)

/-- Embeds `exclude_patients_from_all_files`: the deletion pass applied to
every domain table (csv file) of a cohort. -/
def excludeAllFiles (excluded : List String) (files : List (List TableRow)) :
    List (List TableRow) :=
  files.map (excludeRows excluded)

theorem excludeRows_idem (excluded : List String) (t : List TableRow) :
    excludeRows excluded (excludeRows excluded t) = excludeRows excluded t := by
  simp [excludeRows, List.filter_filter]

/-- Claim C9: The Cohort Filter is re-run safe: applying the row-deletion pass a
second time with the same exclusion set of EpisodeKeys leaves every domain
table unchanged, hence removes 0 additional rows from every table. -/
theorem cohortFilter_rerun_safe (excluded : List String)
    (files : List (List TableRow)) :
    excludeAllFiles excluded (excludeAllFiles excluded files) =
      excludeAllFiles excluded files ∧
    ∀ t : List TableRow,
      (excludeRows excluded (excludeRows excluded t)).length =
        (excludeRows excluded t).length := by
  constructor
  · simp only [excludeAllFiles, List.map_map]
    apply List.map_congr_left
    intro t _
    exact excludeRows_idem excluded t
  · intro t
    rw [excludeRows_idem]

/-- Claim C2: Day-boundary rule: a value whose parsed hour component is in
`[0,8)` is shifted back one calendar day and truncated to a date; a value
with hour `≥ 8` keeps its calendar day.  In particular
`2024-01-02 07:59:00` normalizes to `2024-01-01` and `2024-01-02 08:00:00`
normalizes to `2024-01-02`. -/
theorem dayBoundary_shifts_early_hours (t : Nat) (ht : 1440 ≤ t) :
    (hourOf t < 8 → applyDayBoundary t = dayOf t - 1) ∧
    (8 ≤ hourOf t → applyDayBoundary t = dayOf t) ∧
    applyDayBoundary (civilMinutes 2024 1 2 7 59) = daysFromCivil 2024 1 1 ∧
    applyDayBoundary (civilMinutes 2024 1 2 8 0) = daysFromCivil 2024 1 2 := by
  refine ⟨?_, ?_, by decide, by decide⟩
  · intro h
    simp only [applyDayBoundary, dayOf, if_pos h]
    omega
  · intro h
    simp only [applyDayBoundary, dayOf, if_neg (by omega : ¬ hourOf t < 8)]

theorem dayBoundary_shifts_early_hours_witness :
    1440 ≤ civilMinutes 2024 1 2 7 59 ∧
    applyDayBoundary (civilMinutes 2024 1 2 7 59) = daysFromCivil 2024 1 1 :=
  ⟨by decide,
   (dayBoundary_shifts_early_hours (civilMinutes 2024 1 2 7 59) (by decide)).2.2.1⟩

/-! ### Keyword matching (shared by steps 3, 4 and 6)

Free-text fields are modelled as lists of characters.  Pandas
`Series.str.contains(kw, case=False)` is a case-insensitive substring
test; `Char.toLower` lowercases the ASCII range and leaves CJK
characters (the keywords actually used) unchanged. -/

/-- Lowercased view of a text, for case-insensitive matching. -/
def lowerChars (s : List Char) : List Char := s.map Char.toLower

/-- Case-insensitive substring test: embeds
`Series.str.contains(kw, case=False, na=False)`. -/
def ciContains (txt kw : List Char) : Bool :=
  decide (lowerChars kw <:+: lowerChars txt)

/-- First-occurrence deduplication (pandas `Series.unique`), with an
accumulator of already-seen elements. -/
def uniqGo {α : Type} [DecidableEq α] (seen : List α) : List α → List α
  | [] => []
  | x :: xs => if x ∈ seen then uniqGo seen xs else x :: uniqGo (x :: seen) xs

/-- The distinct elements of a list in order of first occurrence
(pandas `Series.unique`). -/
def uniqueList {α : Type} [DecidableEq α] (l : List α) : List α := uniqGo [] l

theorem mem_uniqGo {α : Type} [DecidableEq α] (x : α) (l : List α) :
    ∀ seen : List α, x ∈ uniqGo seen l ↔ x ∈ l ∧ x ∉ seen := by
  induction l with
  | nil => intro seen; simp [uniqGo]
  | cons y ys ih =>
    intro seen
    by_cases hy : y ∈ seen
    · rw [uniqGo, if_pos hy, ih]
      constructor
      · rintro ⟨hx, hs⟩
        exact ⟨List.mem_cons_of_mem y hx, hs⟩
      · rintro ⟨hx, hs⟩
        rcases List.mem_cons.1 hx with rfl | hx
        · exact absurd hy hs
        · exact ⟨hx, hs⟩
    · rw [uniqGo, if_neg hy]
      rw [List.mem_cons, ih]
      constructor
      · rintro (rfl | ⟨hx, hs⟩)
        · exact ⟨List.mem_cons_self x ys, hy⟩
        · simp only [List.mem_cons, not_or] at hs
          exact ⟨List.mem_cons_of_mem y hx, hs.2⟩
      · rintro ⟨hx, hs⟩
        rcases List.mem_cons.1 hx with rfl | hx
        · exact Or.inl rfl
        · by_cases hxy : x = y
          · exact Or.inl hxy
          · exact Or.inr ⟨hx, by simp [List.mem_cons, hxy, hs]⟩

theorem mem_uniqueList {α : Type} [DecidableEq α] (x : α) (l : List α) :
    x ∈ uniqueList l ↔ x ∈ l := by
  rw [uniqueList, mem_uniqGo]
  simp

/-! ### Step 4: comorbidity extraction (Rule-Based Feature Extractor) -/

/-- Composition logic of a `FeatureRule` (`COMORBIDITIES[...]['logic']`). -/
inductive MatchLogic where
  | AND : MatchLogic
  | OR : MatchLogic
deriving DecidableEq

/-- A declarative comorbidity rule (an entry of `COMORBIDITIES` in
`步骤4_合并症提取.py`): variable name, AND/OR composition, keyword list. -/
structure ComRule where
  name : String
  logic : MatchLogic
  keywords : List (List Char)

/-- One row of the Diagnosis domain table: episode key, free-text
diagnosis, and whatever feature columns are already present in the file
(as name/value pairs). -/
structure DiagRow where
  admission_key : String
  disease_name : List Char
  feats : List (String × Nat)
deriving DecidableEq

/-- Per-record match of one rule against the free-text field
(`extract_comorbidities` lines 154-174: AND folds `&` over
`str.contains`, OR folds `|`). -/
def ruleMatch (rule : ComRule) (txt : List Char) : Bool :=
  match rule.logic with
  | .AND => rule.keywords.all fun kw => ciContains txt kw
  | .OR => rule.keywords.any fun kw => ciContains txt kw

/-- Episode keys of the records matching a rule
(`set(matched['admission_key'].unique())`). -/
def patientsWithRule (rule : ComRule) (t : List DiagRow) : List String :=
  (t.filter fun r => ruleMatch rule r.disease_name).map (·.admission_key)

/-- Embeds `extract_comorbidities`: one output row per distinct episode
key of the full table, one 0/1 value per rule (1 iff the key has a
matching record). -/
def extractComorbidities (rules : List ComRule) (t : List DiagRow) :
    List (String × List (String × Nat)) :=
  (uniqueList (t.map (·.admission_key))).map fun k =>
    (k, rules.map fun rule =>
      (rule.name, if (patientsWithRule rule t).contains k then 1 else 0))

/-- Embeds `add_comorbidities_to_original`: previously-existing columns
with a rule's name are dropped, then the feature row for the record's key
is left-joined on; a key absent from the feature table gets 0 for every
rule (`fillna(0)`). -/
def addComorbidities (rules : List ComRule)
    (features : List (String × List (String × Nat))) (t : List DiagRow) :
    List DiagRow :=
  let names := rules.map (·.name)
  t.map fun r =>
    { r with feats :=
        (r.feats.filter fun c => !(names.contains c.1)) ++
        ((features.lookup r.admission_key).getD
          (rules.map fun rule => (rule.name, 0))) }

/-- One extraction pass of the Rule-Based Feature Extractor on the
Diagnosis table: extract the per-key features, then write them back onto
the table. -/
def comorbidityPass (rules : List ComRule) (t : List DiagRow) : List DiagRow :=
  addComorbidities rules (extractComorbidities rules t) t

theorem addComorbidities_map_key (rules : List ComRule)
    (f : List (String × List (String × Nat))) (t : List DiagRow) :
    (addComorbidities rules f t).map (·.admission_key) =
      t.map (·.admission_key) := by
  simp [addComorbidities, List.map_map, Function.comp]

theorem patientsWithRule_addComorbidities (rule : ComRule)
    (rules : List ComRule) (f : List (String × List (String × Nat)))
    (t : List DiagRow) :
    patientsWithRule rule (addComorbidities rules f t) =
      patientsWithRule rule t := by
  induction t with
  | nil => rfl
  | cons r rs ih =>
    simp only [addComorbidities, List.map_cons] at *
    by_cases h : ruleMatch rule r.disease_name
    · simp only [patientsWithRule, List.filter_cons] at *
      have h' : ruleMatch rule
          ({ r with feats := (r.feats.filter fun c =>
              !((rules.map (·.name)).contains c.1)) ++
            ((f.lookup r.admission_key).getD
              (rules.map fun rule => (rule.name, 0))) } :
            DiagRow).disease_name = true := h
      rw [if_pos h, if_pos h']
      simp only [List.map_cons]
      rw [ih]
    · simp only [patientsWithRule, List.filter_cons] at *
      have h' : ¬ ruleMatch rule
          ({ r with feats := (r.feats.filter fun c =>
              !((rules.map (·.name)).contains c.1)) ++
            ((f.lookup r.admission_key).getD
              (rules.map fun rule => (rule.name, 0))) } :
            DiagRow).disease_name = true := h
      rw [if_neg h, if_neg h']
      exact ih

theorem extractComorbidities_addComorbidities (rules rules' : List ComRule)
    (f : List (String × List (String × Nat))) (t : List DiagRow) :
    extractComorbidities rules (addComorbidities rules' f t) =
      extractComorbidities rules t := by
  unfold extractComorbidities
  rw [addComorbidities_map_key]
  apply List.map_congr_left
  intro k _
  congr 1
  apply List.map_congr_left
  intro rule _
  rw [patientsWithRule_addComorbidities]

theorem lookup_mapped {β : Type} (g : String → β) (ks : List String)
    (k : String) :
    ((ks.map fun x => (x, g x)).lookup k = none) ∨
      ((ks.map fun x => (x, g x)).lookup k = some (g k)) := by
  induction ks with
  | nil => exact Or.inl rfl
  | cons x xs ih =>
    simp only [List.map_cons, List.lookup]
    by_cases hx : x = k
    · subst hx
      simp
    · have hbeq : (k == x) = false := beq_false_of_ne fun h => hx h.symm
      rw [hbeq]
      exact ih

theorem extract_lookup_names (rules : List ComRule) (t : List DiagRow)
    (k : String) :
    (((extractComorbidities rules t).lookup k).getD
        (rules.map fun rule => (rule.name, 0))).map Prod.fst =
      rules.map (·.name) := by
  rcases lookup_mapped
      (fun k => rules.map fun rule =>
        (rule.name, if (patientsWithRule rule t).contains k then 1 else 0))
      (uniqueList (t.map (·.admission_key))) k with h | h
  · rw [extractComorbidities, h]
    simp [List.map_map]
  · rw [extractComorbidities, h]
    simp [List.map_map]

theorem addComorbidities_extract_twice (rules : List ComRule)
    (t0 t : List DiagRow) :
    addComorbidities rules (extractComorbidities rules t0)
        (addComorbidities rules (extractComorbidities rules t0) t) =
      addComorbidities rules (extractComorbidities rules t0) t := by
  unfold addComorbidities
  rw [List.map_map]
  apply List.map_congr_left
  intro r _
  simp only [Function.comp]
  congr 1
  rw [List.filter_append, List.filter_filter]
  have hnil : (((extractComorbidities rules t0).lookup r.admission_key).getD
      (rules.map fun rule => (rule.name, 0))).filter
        (fun c => !((rules.map (·.name)).contains c.1)) = [] := by
    rw [List.filter_eq_nil_iff]
    intro c hc
    have hfst : c.1 ∈ rules.map (·.name) := by
      rw [← extract_lookup_names rules t0 r.admission_key]
      exact List.mem_map_of_mem Prod.fst hc
    simpa using hfst
  rw [hnil, List.append_nil]
  congr 1
  apply List.filter_congr
  intro c _
  simp

/-- Claim C7: The Rule-Based Feature Extractor is idempotent against its own
output: extracting features and writing them back a second time yields
exactly the same table (same columns, same values) as one pass, because
previously-existing feature columns are dropped and replaced before the
left join. -/
theorem comorbidityPass_idempotent (rules : List ComRule) (t : List DiagRow) :
    comorbidityPass rules (comorbidityPass rules t) = comorbidityPass rules t := by
  unfold comorbidityPass
  rw [extractComorbidities_addComorbidities]
  exact addComorbidities_extract_twice rules t t

/-- Claim C6: AND composition: a record is flagged for an AND rule iff every
keyword of the rule occurs as a case-insensitive substring of the record's
free-text field, irrespective of keyword order or position. -/
theorem andComposition_iff (n : String) (kws : List (List Char))
    (txt : List Char) :
    ruleMatch ⟨n, MatchLogic.AND, kws⟩ txt = true ↔
      ∀ kw ∈ kws, lowerChars kw <:+: lowerChars txt := by
  simp [ruleMatch, ciContains, List.all_eq_true]

/-- The DN rule of `COMORBIDITIES` (diabetic nephropathy): AND of
"糖尿病" and "肾病". -/
def dnRule : ComRule := ⟨"DN", MatchLogic.AND, ["糖尿病".toList, "肾病".toList]⟩

theorem andComposition_iff_witness :
    ruleMatch dnRule "糖尿病肾病".toList = true ∧
    ruleMatch dnRule "肾病，由糖尿病引起".toList = true ∧
    ruleMatch dnRule "2型糖尿病".toList = false :=
  ⟨(andComposition_iff "DN" dnRule.keywords "糖尿病肾病".toList).2 (by decide),
   (andComposition_iff "DN" dnRule.keywords "肾病，由糖尿病引起".toList).2 (by decide),
   by decide⟩

/-! ### Step 3: medication features -/

/-- One row of the MedicationOrder domain table (the columns used by
`extract_medication_features`): episode key, order status, and the
ingredient name (`inn_name`, column K). -/
structure MedRow where
  admission_key : String
  order_status : List Char
  inn_name : List Char
deriving DecidableEq

/-- The voided-order marker `'已撤销'`. -/
def cancelledStatus : List Char := "已撤销".toList

/-- The valid (non-voided) subset:
`df_valid = df[df['order_status'] != '已撤销']`. -/
def validMedRows (t : List MedRow) : List MedRow :=
  t.filter fun r => !(decide (r.order_status = cancelledStatus))

/-- Keys of valid rows accepted by a match predicate
(`patients_using.update(matched['admission_key'].unique())`); the special
trade-name/administration-route rules also restrict to `df_valid`, so they
are instances of the same shape with a different predicate. -/
def medPatientsUsing (p : MedRow → Bool) (t : List MedRow) : List String :=
  ((validMedRows t).filter p).map (·.admission_key)

/-- The keyword (OR) matcher on `inn_name`: one `str.contains` per
keyword, unioned. -/
def medKeywordMatch (kws : List (List Char)) (r : MedRow) : Bool :=
  kws.any fun kw => ciContains r.inn_name kw

/-- Embeds `extract_medication_features`: the output population is
`df['admission_key'].unique()` of the FULL table (voided rows included),
and each rule's flag is 1 iff the key appears among the valid rows
matching the rule's keywords. -/
def extractMedicationFeatures (rules : List (String × List (List Char)))
    (t : List MedRow) : List (String × List (String × Nat)) :=
  (uniqueList (t.map (·.admission_key))).map fun k =>
    (k, rules.map fun rule =>
      (rule.1,
        if (medPatientsUsing (medKeywordMatch rule.2) t).contains k then 1
        else 0))

/-- Claim C8: The medication feature extractor's output population is the set
of all EpisodeKeys of the FULL table; voided records are excluded from
matching but not from the population, so a key whose records are all
voided gets 0 for every rule; and every feature value is 0 or 1. -/
theorem medFeatures_population (rules : List (String × List (List Char)))
    (t : List MedRow) :
    ((extractMedicationFeatures rules t).map Prod.fst =
        uniqueList (t.map (·.admission_key))) ∧
    (∀ k : String,
        k ∈ (extractMedicationFeatures rules t).map Prod.fst ↔
          k ∈ t.map (·.admission_key)) ∧
    (∀ k feats, (k, feats) ∈ extractMedicationFeatures rules t →
        (∀ nm v, (nm, v) ∈ feats → v = 0 ∨ v = 1) ∧
        ((∀ r ∈ t, r.admission_key = k → r.order_status = cancelledStatus) →
          ∀ nm v, (nm, v) ∈ feats → v = 0)) := by
  have hmap : (extractMedicationFeatures rules t).map Prod.fst =
      uniqueList (t.map (·.admission_key)) := by
    rw [extractMedicationFeatures, List.map_map]
    exact List.map_id _
  refine ⟨hmap, ?_, ?_⟩
  · intro k
    rw [hmap, mem_uniqueList]
  · intro k feats hmem
    rcases List.mem_map.1 hmem with ⟨k', _, heq⟩
    have hk : k' = k := congrArg Prod.fst heq
    subst hk
    have hfeats : feats = rules.map fun rule =>
        (rule.1,
          if (medPatientsUsing (medKeywordMatch rule.2) t).contains k' then 1
          else 0) :=
      (congrArg Prod.snd heq).symm
    constructor
    · intro nm v hv
      rw [hfeats] at hv
      rcases List.mem_map.1 hv with ⟨rule, _, hrule⟩
      have hval : (if (medPatientsUsing (medKeywordMatch rule.2) t).contains k'
          then 1 else 0) = v := congrArg Prod.snd hrule
      split at hval
      · exact Or.inr hval.symm
      · exact Or.inl hval.symm
    · intro hvoid nm v hv
      rw [hfeats] at hv
      rcases List.mem_map.1 hv with ⟨rule, _, hrule⟩
      have hval : (if (medPatientsUsing (medKeywordMatch rule.2) t).contains k'
          then 1 else 0) = v := congrArg Prod.snd hrule
      have hnot : ¬ (medPatientsUsing (medKeywordMatch rule.2) t).contains k' := by
        intro hcon
        have hk'mem : k' ∈ medPatientsUsing (medKeywordMatch rule.2) t := by
          simpa using hcon
        rcases List.mem_map.1 hk'mem with ⟨r, hr, hrk⟩
        have hrvalid := List.mem_filter.1 (List.mem_filter.1 hr).1
        have hrt : r ∈ t := hrvalid.1
        have hstat : ¬ r.order_status = cancelledStatus := by
          simpa using hrvalid.2
        exact hstat (hvoid r hrt hrk)
      rw [if_neg hnot] at hval
      exact hval.symm

/-- Concrete medication rule set: the Metformin entry of
`ORAL_MEDICATIONS` (first keyword). -/
def exMedRules : List (String × List (List Char)) :=
  [("Metformin", ["二甲双胍".toList])]

/-- A one-row table whose only record is voided. -/
def exMedTable : List MedRow :=
  [⟨"P1", "已撤销".toList, "二甲双胍".toList⟩]

theorem medFeatures_population_witness :
    (("P1", [("Metformin", 0)]) ∈
        extractMedicationFeatures exMedRules exMedTable) ∧
    (∀ nm v, (nm, v) ∈ [("Metformin", (0 : Nat))] → v = 0) :=
  ⟨by decide,
   ((medFeatures_population exMedRules exMedTable).2.2
      "P1" [("Metformin", 0)] (by decide)).2 (by decide)⟩

/-! ### Step 6: fasting / nutrition extraction -/

/-- One row of the NonDrugOrder table (the columns used by
`extract_fasting_nutrition`): episode key, free-text order item, and the
prescribed/start/stop timestamps, each `none` when unparseable.
Timestamps are minutes on a linear time axis (`Int`, as differences
matter). -/
structure OrderRow where
  admission_key : String
  order_item_name : List Char
  prescribed_time : Option Int
  start_time : Option Int
  stop_time : Option Int
deriving DecidableEq

/-- Embeds `calculate_time_diff_hours`: `None` on a missing endpoint,
otherwise `(stop - start).days * 24`.  `Timedelta.days` is the
floor-of-days component, i.e. `Int.fdiv` by one day. -/
def timeDiffHours (a b : Option Int) : Option Int :=
  match a, b with
  | some x, some y => some (Int.fdiv (y - x) 1440 * 24)
  | _, _ => none

/-- The fasting keyword `'禁食'`. -/
def fastingKeyword : List Char := "禁食".toList

/-- The nutrition keywords `['肠内', '肠外', '营养']`. -/
def nutritionKeywords : List (List Char) :=
  ["肠内".toList, "肠外".toList, "营养".toList]

/-- `fasting_mask`: the order-item text contains the fasting keyword. -/
def isFastingRow (r : OrderRow) : Bool :=
  ciContains r.order_item_name fastingKeyword

/-- The duration filter of `extract_fasting_nutrition` line 121
(`df_fasting['time_diff_hours'] <= 24`): a row is kept when its computed
duration exists and is `≤ 24`; a `NaN` duration compares false. -/
def keepFastingRow (r : OrderRow) : Bool :=
  match timeDiffHours r.start_time r.stop_time with
  | some h => decide (h ≤ 24)
  | none => false

/-- `valid_fasting`: fasting-keyword rows passing the duration filter. -/
def validFastingRows (t : List OrderRow) : List OrderRow :=
  (t.filter isFastingRow).filter keepFastingRow

/-- The fasting time window: prescribed day 08:00 to next day 08:00
(`prescribed_date.replace(hour=8, ...)`, `window_start + timedelta(days=1)`);
`none` when the prescribed timestamp is missing. -/
def fastingWindow (r : OrderRow) : Option (Int × Int) :=
  r.prescribed_time.map fun p =>
    (Int.fdiv p 1440 * 1440 + 480, Int.fdiv p 1440 * 1440 + 480 + 1440)

/-- `fasting_by_patient[k]`: the aggregated fasting windows of one key. -/
def fastingPeriodsFor (t : List OrderRow) (k : String) : List (Int × Int) :=
  ((validFastingRows t).filter fun r => decide (r.admission_key = k)).filterMap
    fastingWindow

/-- `nutrition_mask`: any nutrition keyword and not the fasting mask; no
duration condition. -/
def isNutritionRow (r : OrderRow) : Bool :=
  (nutritionKeywords.any fun kw => ciContains r.order_item_name kw) &&
    !(isFastingRow r)

/-- `df_nutrition`: the nutrition rows of the table. -/
def nutritionRows (t : List OrderRow) : List OrderRow :=
  t.filter isNutritionRow

/-- A fasting order whose raw stop-minus-start duration is exactly
25 hours (start minute 0, stop minute 1500). -/
def cexFastingRow : OrderRow :=
  ⟨"P1", "禁食".toList, some 480, some 0, some 1500⟩

def cexFastingTable : List OrderRow := [cexFastingRow]

/-- Claim C5, counterexample: The claim says a fasting record whose raw
stop-minus-start duration is exactly 25 hours contributes no fasting
window.  On the code, `calculate_time_diff_hours` floors the duration to
whole days (`(stop-start).days * 24`), so a 25-hour record computes as
24 h, passes the `<= 24` filter, and DOES contribute its window: here the
25-hour row (stop − start = 1500 minutes = 25 × 60) yields the window
08:00-next-08:00 of its prescribed day. -/
theorem fastingDiscard_claim_false :
    cexFastingRow.stop_time = some 1500 ∧
    cexFastingRow.start_time = some 0 ∧
    (1500 : Int) - 0 = 25 * 60 ∧
    fastingPeriodsFor cexFastingTable "P1" = [(480, 1920)] := by
  refine ⟨rfl, rfl, by decide, ?_⟩
  decide

/-- Claim C5, amended: A fasting-keyword row enters the window aggregation
iff both endpoints parse and its floor-of-days duration
`(stop − start).days × 24` is at most 24 hours — so only durations
reaching two whole days (≥ 48 h) are discarded, and a raw duration of
exactly 25 hours (floored to 24 h) is retained; rows with an unparseable
endpoint are discarded; a nutrition-category match is defined by keywords
alone and is unaffected by any duration filter. -/
theorem fastingDiscard_floorDays (t : List OrderRow) (r : OrderRow) :
    (r ∈ validFastingRows t ↔
      r ∈ t ∧ isFastingRow r = true ∧
        ∃ a b, r.start_time = some a ∧ r.stop_time = some b ∧
          Int.fdiv (b - a) 1440 * 24 ≤ 24) ∧
    (∀ a b, r.start_time = some a → r.stop_time = some b →
      b - a = 25 * 60 → r ∈ t → isFastingRow r = true →
        r ∈ validFastingRows t) ∧
    (r ∈ nutritionRows t ↔
      r ∈ t ∧
        (nutritionKeywords.any fun kw => ciContains r.order_item_name kw) = true ∧
        isFastingRow r = false) := by
  have hmain : r ∈ validFastingRows t ↔
      r ∈ t ∧ isFastingRow r = true ∧
        ∃ a b, r.start_time = some a ∧ r.stop_time = some b ∧
          Int.fdiv (b - a) 1440 * 24 ≤ 24 := by
    unfold validFastingRows
    rw [List.mem_filter, List.mem_filter]
    constructor
    · rintro ⟨⟨hrt, hfast⟩, hkeep⟩
      refine ⟨hrt, hfast, ?_⟩
      unfold keepFastingRow at hkeep
      unfold timeDiffHours at hkeep
      rcases hs : r.start_time with _ | a
      · rw [hs] at hkeep; simp at hkeep
      · rcases ht' : r.stop_time with _ | b
        · rw [hs, ht'] at hkeep; simp at hkeep
        · rw [hs, ht'] at hkeep
          simp only [decide_eq_true_eq] at hkeep
          exact ⟨a, b, rfl, rfl, hkeep⟩
    · rintro ⟨hrt, hfast, a, b, hs, ht', hle⟩
      refine ⟨⟨hrt, hfast⟩, ?_⟩
      unfold keepFastingRow timeDiffHours
      rw [hs, ht']
      simpa using hle
  refine ⟨hmain, ?_, ?_⟩
  · intro a b hs ht' hd hrt hfast
    refine hmain.2 ⟨hrt, hfast, a, b, hs, ht', ?_⟩
    rw [hd]
    decide
  · unfold nutritionRows isNutritionRow
    rw [List.mem_filter]
    constructor
    · rintro ⟨hrt, hmask⟩
      rw [Bool.and_eq_true] at hmask
      obtain ⟨hkw, hnot⟩ := hmask
      exact ⟨hrt, hkw, by simpa using hnot⟩
    · rintro ⟨hrt, hkw, hnot⟩
      exact ⟨hrt, by simp [hkw, hnot]⟩

theorem fastingDiscard_floorDays_witness :
    cexFastingRow ∈ validFastingRows cexFastingTable :=
  (fastingDiscard_floorDays cexFastingTable cexFastingRow).2.1
    0 1500 rfl rfl (by decide) (by decide) (by decide)

/-! ### Step 7: daily glucose statistics -/

/-- One raw glucose reading (the columns used by `process_glucose_data`):
episode key, the parsed calendar day of `exam_time` (`none` when
unparseable) and the numeric value of `blood_sugar` (`none` when
non-numeric).  Glucose values are modelled as rationals. -/
structure GluRow where
  admission_key : String
  date : Option Nat
  blood_sugar : Option ℚ
deriving DecidableEq

/-- The rows surviving the two `dropna` passes of `process_glucose_data`
(valid date and numeric value), as (key, date, value) triples. -/
def validGlucose (t : List GluRow) : List (String × Nat × ℚ) :=
  t.filterMap fun r =>
    match r.date, r.blood_sugar with
    | some d, some v => some (r.admission_key, d, v)
    | _, _ => none

/-- The glucose values of one (key, date) group. -/
def groupValues (l : List (String × Nat × ℚ)) (k : String) (d : Nat) :
    List ℚ :=
  (l.filter fun x => decide (x.1 = k ∧ x.2.1 = d)).map fun x => x.2.2

/-- The distinct (key, date) pairs, i.e. the groups of
`groupby(['admission_key', 'date'])`. -/
def statPairs (l : List (String × Nat × ℚ)) : List (String × Nat) :=
  uniqueList (l.map fun x => (x.1, x.2.1))

/-- Minimum of a list of rationals (`agg 'min'`; 0 on the empty list,
which never occurs for a group). -/
def listMin : List ℚ → ℚ
  | [] => 0
  | x :: xs => xs.foldl min x

/-- Maximum of a list of rationals (`agg 'max'`). -/
def listMax : List ℚ → ℚ
  | [] => 0
  | x :: xs => xs.foldl max x

/-- Mean of a list of rationals (`agg 'mean'`). -/
def listMean (l : List ℚ) : ℚ := l.sum / l.length

/-- Square of the pandas `'std'` aggregate: the SAMPLE variance, dividing
the sum of squared deviations by `n - 1` (pandas `Series.std` defaults to
`ddof=1`).  The standard deviation itself is the square root of this
value, which is irrational in general, so the development carries the
square. -/
def sampleVar (l : List ℚ) : ℚ :=
  ((l.map fun x => (x - listMean l) * (x - listMean l)).sum) /
    ((l.length : ℚ) - 1)

/-- Modelled from the spec: the square of the "population standard
deviation" the spec's daily-statistics sentence asks for — the sum of
squared deviations divided by `n` — stated only to be compared with the
code's `sampleVar`. -/
def popVar (l : List ℚ) : ℚ :=
  ((l.map fun x => (x - listMean l) * (x - listMean l)).sum) /
    (l.length : ℚ)

/-- Round-half-to-even of a real to an integer: numpy's `round`, which
pandas `Series.round` delegates to.  Ties (fractional part exactly one
half) go to the even neighbour; every other value goes to the nearest
integer. -/
noncomputable def roundHalfEven (x : ℝ) : ℤ :=
  if Int.fract x = 1 / 2 then 2 * round (x / 2) else round x

theorem roundHalfEven_dist (y : ℝ) : |(roundHalfEven y : ℝ) - y| ≤ 1 / 2 := by
  unfold roundHalfEven
  split_ifs with h
  · have hy : y = (⌊y⌋ : ℝ) + 1 / 2 := by
      have h0 := Int.floor_add_fract y
      rw [h] at h0
      linarith
    rcases Int.even_or_odd ⌊y⌋ with ⟨m, hm⟩ | ⟨m, hm⟩
    · have h2 : y / 2 = (m : ℝ) + 1 / 4 := by
        rw [hy, hm]
        push_cast
        ring
      have hr : round (y / 2) = m := by
        rw [h2, round_eq]
        apply Int.floor_eq_iff.2
        constructor
        · linarith
        · linarith
      rw [hr, hy, hm]
      have he : ((2 * m : ℤ) : ℝ) - (((m + m : ℤ) : ℝ) + 1 / 2) = -(1 / 2) := by
        push_cast
        ring
      rw [he, abs_neg]
      rw [abs_of_nonneg (by norm_num : (0 : ℝ) ≤ 1 / 2)]
    · have h2 : y / 2 = (m : ℝ) + 3 / 4 := by
        rw [hy, hm]
        push_cast
        ring
      have hr : round (y / 2) = m + 1 := by
        rw [h2, round_eq]
        apply Int.floor_eq_iff.2
        constructor
        · push_cast
          linarith
        · push_cast
          linarith
      rw [hr, hy, hm]
      have he : ((2 * (m + 1) : ℤ) : ℝ) - (((2 * m + 1 : ℤ) : ℝ) + 1 / 2) =
          1 / 2 := by
        push_cast
        ring
      rw [he]
      rw [abs_of_nonneg (by norm_num : (0 : ℝ) ≤ 1 / 2)]
  · rw [abs_sub_comm]
    exact abs_sub_round y

theorem roundHalfEven_tenThousandThirds :
    roundHalfEven ((10000 : ℝ) / 3) = 3333 := by
  unfold roundHalfEven
  have hfl : ⌊(10000 : ℝ) / 3⌋ = 3333 := by
    apply Int.floor_eq_iff.2
    constructor
    · norm_num
    · norm_num
  have hfr : Int.fract ((10000 : ℝ) / 3) = 1 / 3 := by
    rw [Int.fract, hfl]
    norm_num
  rw [if_neg (by rw [hfr]; norm_num)]
  rw [round_eq]
  apply Int.floor_eq_iff.2
  constructor
  · norm_num
  · norm_num

/-- Embeds the `cv_glucose` column of `process_glucose_data`
(`步骤7_拼接时序大表.py` line 116):
`(std_glucose / mean_glucose * 100).round(2)` — the standard deviation
(the square root of the sample variance) over the mean times 100, rounded
to two decimal places.  The rounded value is always rational even though
the standard deviation is not. -/
noncomputable def cvRat (l : List ℚ) : ℚ :=
  (roundHalfEven (Real.sqrt ((sampleVar l : ℚ) : ℝ) / ((listMean l : ℚ) : ℝ)
      * 100 * 100) : ℚ) / 100

/-- The cv column is `std/mean × 100` rounded to two decimal places: it is
an integer number of hundredths within 1/200 of `std/mean × 100`. -/
theorem cvRat_rounds (l : List ℚ) :
    ∃ z : ℤ, cvRat l = (z : ℚ) / 100 ∧
      |((cvRat l : ℚ) : ℝ) -
        Real.sqrt ((sampleVar l : ℚ) : ℝ) / ((listMean l : ℚ) : ℝ) * 100| ≤
          1 / 200 := by
  refine ⟨roundHalfEven (Real.sqrt ((sampleVar l : ℚ) : ℝ) /
      ((listMean l : ℚ) : ℝ) * 100 * 100), rfl, ?_⟩
  set W := Real.sqrt ((sampleVar l : ℚ) : ℝ) / ((listMean l : ℚ) : ℝ) * 100
    with hW
  set z := roundHalfEven (W * 100) with hz
  have hd := roundHalfEven_dist (W * 100)
  have hcv : cvRat l = (z : ℚ) / 100 := rfl
  have hcast : ((cvRat l : ℚ) : ℝ) = (z : ℝ) / 100 := by
    rw [hcv]
    push_cast
    ring
  rw [hcast]
  have hre : (z : ℝ) / 100 - W = ((z : ℝ) - W * 100) / 100 := by ring
  rw [hre, abs_div]
  rw [abs_of_nonneg (by norm_num : (0 : ℝ) ≤ (100 : ℝ))]
  rw [← hz] at hd
  linarith [hd]

/-- One row of the daily glucose table produced by
`process_glucose_data`.  `stdSq_glucose` is the square of the
`std_glucose` column; `cv_glucose` is the coefficient-of-variation column
(`std/mean × 100` rounded to two decimals), which is rational. -/
structure DailyStat where
  admission_key : String
  date : Nat
  min_glucose : ℚ
  max_glucose : ℚ
  mean_glucose : ℚ
  stdSq_glucose : ℚ
  count_glucose : Nat
  cv_glucose : ℚ
deriving DecidableEq

/-- Embeds the `groupby(['admission_key','date']).agg(...)` call of
`process_glucose_data` together with the `cv_glucose` column of line 116:
one row per (key, date) group with the group's min, max, mean, (squared)
std, count and rounded coefficient of variation. -/
noncomputable def dailyStats (t : List GluRow) : List DailyStat :=
  (statPairs (validGlucose t)).map fun p =>
    let vs := groupValues (validGlucose t) p.1 p.2
    ⟨p.1, p.2, listMin vs, listMax vs, listMean vs, sampleVar vs, vs.length,
      cvRat vs⟩

theorem foldl_min_le_init (l : List ℚ) : ∀ a : ℚ, l.foldl min a ≤ a := by
  induction l with
  | nil => intro a; exact le_refl a
  | cons x xs ih =>
    intro a
    calc (x :: xs).foldl min a = xs.foldl min (min a x) := rfl
    _ ≤ min a x := ih (min a x)
    _ ≤ a := min_le_left a x

theorem foldl_min_le_mem (l : List ℚ) (x : ℚ) (hx : x ∈ l) :
    ∀ a : ℚ, l.foldl min a ≤ x := by
  induction l with
  | nil => cases hx
  | cons y ys ih =>
    intro a
    rcases List.mem_cons.1 hx with rfl | hx'
    · calc (x :: ys).foldl min a = ys.foldl min (min a x) := rfl
      _ ≤ min a x := foldl_min_le_init ys (min a x)
      _ ≤ x := min_le_right a x
    · exact ih hx' (min a y)

theorem foldl_min_mem (l : List ℚ) : ∀ a : ℚ,
    l.foldl min a = a ∨ l.foldl min a ∈ l := by
  induction l with
  | nil => intro a; exact Or.inl rfl
  | cons x xs ih =>
    intro a
    rcases ih (min a x) with h | h
    · rcases min_choice a x with hm | hm
      · exact Or.inl (by rw [List.foldl_cons, h, hm])
      · refine Or.inr ?_
        rw [List.foldl_cons, h, hm]
        exact List.mem_cons_self x xs
    · exact Or.inr (List.mem_cons_of_mem x h)

theorem foldl_max_init_le (l : List ℚ) : ∀ a : ℚ, a ≤ l.foldl max a := by
  induction l with
  | nil => intro a; exact le_refl a
  | cons x xs ih =>
    intro a
    calc a ≤ max a x := le_max_left a x
    _ ≤ xs.foldl max (max a x) := ih (max a x)
    _ = (x :: xs).foldl max a := rfl

theorem foldl_max_mem_le (l : List ℚ) (x : ℚ) (hx : x ∈ l) :
    ∀ a : ℚ, x ≤ l.foldl max a := by
  induction l with
  | nil => cases hx
  | cons y ys ih =>
    intro a
    rcases List.mem_cons.1 hx with rfl | hx'
    · calc x ≤ max a x := le_max_right a x
      _ ≤ ys.foldl max (max a x) := foldl_max_init_le ys (max a x)
      _ = (x :: ys).foldl max a := rfl
    · exact ih hx' (max a y)

theorem foldl_max_mem (l : List ℚ) : ∀ a : ℚ,
    l.foldl max a = a ∨ l.foldl max a ∈ l := by
  induction l with
  | nil => intro a; exact Or.inl rfl
  | cons x xs ih =>
    intro a
    rcases ih (max a x) with h | h
    · rcases max_choice a x with hm | hm
      · exact Or.inl (by rw [List.foldl_cons, h, hm])
      · refine Or.inr ?_
        rw [List.foldl_cons, h, hm]
        exact List.mem_cons_self x xs
    · exact Or.inr (List.mem_cons_of_mem x h)

theorem listMin_spec (l : List ℚ) (h : l ≠ []) :
    listMin l ∈ l ∧ ∀ x ∈ l, listMin l ≤ x := by
  rcases l with _ | ⟨x, xs⟩
  · cases h rfl
  constructor
  · rcases foldl_min_mem xs x with h' | h'
    · rw [listMin, h']; exact List.mem_cons_self x xs
    · rw [listMin]; exact List.mem_cons_of_mem x h'
  · intro y hy
    rcases List.mem_cons.1 hy with rfl | hy'
    · exact foldl_min_le_init xs y
    · exact foldl_min_le_mem xs y hy' x

theorem listMax_spec (l : List ℚ) (h : l ≠ []) :
    listMax l ∈ l ∧ ∀ x ∈ l, x ≤ listMax l := by
  rcases l with _ | ⟨x, xs⟩
  · cases h rfl
  constructor
  · rcases foldl_max_mem xs x with h' | h'
    · rw [listMax, h']; exact List.mem_cons_self x xs
    · rw [listMax]; exact List.mem_cons_of_mem x h'
  · intro y hy
    rcases List.mem_cons.1 hy with rfl | hy'
    · exact foldl_max_init_le xs y
    · exact foldl_max_mem_le xs y hy' x

theorem listMean_mul (l : List ℚ) (h : l ≠ []) :
    listMean l * l.length = l.sum := by
  have hlen : (l.length : ℚ) ≠ 0 := by
    have : l.length ≠ 0 := fun hc => h (List.length_eq_zero.1 hc)
    exact_mod_cast this
  rw [listMean, div_mul_cancel₀ _ hlen]

theorem sampleVar_mul (l : List ℚ) (h : l ≠ []) :
    sampleVar l * ((l.length : ℚ) - 1) =
      ((l.map fun x => (x - listMean l) * (x - listMean l)).sum) := by
  rcases l with _ | ⟨x, xs⟩
  · cases h rfl
  rcases xs with _ | ⟨y, ys⟩
  · have hm : listMean [x] = x := by
      simp [listMean]
    simp [sampleVar, hm]
  · have hne : (((x :: y :: ys).length : ℚ)) - 1 ≠ 0 := by
      have h2 : (2 : ℚ) ≤ ((x :: y :: ys).length : ℚ) := by
        have : 2 ≤ (x :: y :: ys).length := by
          simp [List.length_cons]
        exact_mod_cast this
      linarith
    exact div_mul_cancel₀ _ hne

theorem groupValues_ne_nil (t : List GluRow) (k : String) (d : Nat)
    (h : (k, d) ∈ statPairs (validGlucose t)) :
    groupValues (validGlucose t) k d ≠ [] := by
  rw [statPairs, mem_uniqueList] at h
  rcases List.mem_map.1 h with ⟨x, hx, hxe⟩
  intro hnil
  have hxf : x ∈ (validGlucose t).filter
      fun x => decide (x.1 = k ∧ x.2.1 = d) := by
    rw [List.mem_filter]
    refine ⟨hx, ?_⟩
    have h1 : x.1 = k := congrArg Prod.fst hxe
    have h2 : x.2.1 = d := congrArg Prod.snd hxe
    simp [h1, h2]
  have : x.2.2 ∈ groupValues (validGlucose t) k d :=
    List.mem_map_of_mem _ hxf
  rw [hnil] at this
  cases this

/-- Claim C4, amended: For every (EpisodeKey, date) group of parseable
glucose measurements, the daily-statistics row holds the group's true
minimum, maximum, mean (mean × count = sum) and count; its squared
standard deviation is the SAMPLE variance — the sum of squared deviations
from the mean divided by `n − 1` (pandas `std` default `ddof=1`), not by
`n`; and its coefficient-of-variation column is `std/mean × 100` rounded
to two decimal places — an integer number of hundredths within 1/200 of
the standard deviation (the square root of the std²-column) over the mean
times 100. -/
theorem dailyStats_correct (t : List GluRow) (k : String) (d : Nat)
    (h : (k, d) ∈ statPairs (validGlucose t)) :
    ∃ s ∈ dailyStats t, s.admission_key = k ∧ s.date = d ∧
      (groupValues (validGlucose t) k d ≠ [] ∧
       s.count_glucose = (groupValues (validGlucose t) k d).length ∧
       s.min_glucose ∈ groupValues (validGlucose t) k d ∧
       (∀ x ∈ groupValues (validGlucose t) k d, s.min_glucose ≤ x) ∧
       s.max_glucose ∈ groupValues (validGlucose t) k d ∧
       (∀ x ∈ groupValues (validGlucose t) k d, x ≤ s.max_glucose) ∧
       s.mean_glucose * (groupValues (validGlucose t) k d).length =
         (groupValues (validGlucose t) k d).sum ∧
       s.stdSq_glucose * (((groupValues (validGlucose t) k d).length : ℚ) - 1) =
         ((groupValues (validGlucose t) k d).map fun x =>
           (x - s.mean_glucose) * (x - s.mean_glucose)).sum ∧
       (∃ z : ℤ, s.cv_glucose = (z : ℚ) / 100 ∧
         |((s.cv_glucose : ℚ) : ℝ) -
           Real.sqrt ((s.stdSq_glucose : ℚ) : ℝ) /
             ((s.mean_glucose : ℚ) : ℝ) * 100| ≤ 1 / 200)) := by
  have hne := groupValues_ne_nil t k d h
  refine ⟨⟨k, d, listMin (groupValues (validGlucose t) k d),
      listMax (groupValues (validGlucose t) k d),
      listMean (groupValues (validGlucose t) k d),
      sampleVar (groupValues (validGlucose t) k d),
      (groupValues (validGlucose t) k d).length,
      cvRat (groupValues (validGlucose t) k d)⟩, ?_, rfl, rfl, hne, rfl,
      (listMin_spec _ hne).1, (listMin_spec _ hne).2,
      (listMax_spec _ hne).1, (listMax_spec _ hne).2,
      listMean_mul _ hne, sampleVar_mul _ hne,
      cvRat_rounds (groupValues (validGlucose t) k d)⟩
  rw [dailyStats]
  exact List.mem_map.2 ⟨(k, d), h, rfl⟩

/-- A concrete glucose table: one episode, one day, readings 0 and 2. -/
def exGluTable : List GluRow :=
  [⟨"E1", some 10, some 0⟩, ⟨"E1", some 10, some 2⟩]

theorem dailyStats_correct_witness :
    (("E1", 10) ∈ statPairs (validGlucose exGluTable)) ∧
    ∃ s ∈ dailyStats exGluTable, s.admission_key = "E1" ∧ s.date = 10 ∧
      (groupValues (validGlucose exGluTable) "E1" 10 ≠ [] ∧
       s.count_glucose = (groupValues (validGlucose exGluTable) "E1" 10).length ∧
       s.min_glucose ∈ groupValues (validGlucose exGluTable) "E1" 10 ∧
       (∀ x ∈ groupValues (validGlucose exGluTable) "E1" 10, s.min_glucose ≤ x) ∧
       s.max_glucose ∈ groupValues (validGlucose exGluTable) "E1" 10 ∧
       (∀ x ∈ groupValues (validGlucose exGluTable) "E1" 10, x ≤ s.max_glucose) ∧
       s.mean_glucose * (groupValues (validGlucose exGluTable) "E1" 10).length =
         (groupValues (validGlucose exGluTable) "E1" 10).sum ∧
       s.stdSq_glucose *
           (((groupValues (validGlucose exGluTable) "E1" 10).length : ℚ) - 1) =
         ((groupValues (validGlucose exGluTable) "E1" 10).map fun x =>
           (x - s.mean_glucose) * (x - s.mean_glucose)).sum ∧
       (∃ z : ℤ, s.cv_glucose = (z : ℚ) / 100 ∧
         |((s.cv_glucose : ℚ) : ℝ) -
           Real.sqrt ((s.stdSq_glucose : ℚ) : ℝ) /
             ((s.mean_glucose : ℚ) : ℝ) * 100| ≤ 1 / 200)) :=
  ⟨by decide, dailyStats_correct exGluTable "E1" 10 (by decide)⟩

/-- A concrete glucose table: one episode, one day, readings 5, 5, 5, 9 —
chosen so that the sample standard deviation (2) and the mean (6) are both
rational, exposing the cv column exactly. -/
def exCvTable : List GluRow :=
  [⟨"E2", some 20, some 5⟩, ⟨"E2", some 20, some 5⟩,
   ⟨"E2", some 20, some 5⟩, ⟨"E2", some 20, some 9⟩]

theorem sampleVar_exCv : sampleVar [5, 5, 5, 9] = 4 := by
  norm_num [sampleVar, listMean, List.sum_cons, List.sum_nil]

theorem listMean_exCv : listMean [5, 5, 5, 9] = 6 := by
  norm_num [listMean, List.sum_cons, List.sum_nil]

theorem cvRat_exCv : cvRat [5, 5, 5, 9] = 3333 / 100 := by
  unfold cvRat
  rw [sampleVar_exCv, listMean_exCv]
  have hs : Real.sqrt ((4 : ℚ) : ℝ) = 2 := by
    have h4 : ((4 : ℚ) : ℝ) = (2 : ℝ) ^ 2 := by norm_num
    rw [h4, Real.sqrt_sq (by norm_num : (0 : ℝ) ≤ 2)]
  rw [hs]
  have h6 : ((6 : ℚ) : ℝ) = 6 := by norm_num
  rw [h6]
  have harg : (2 : ℝ) / 6 * 100 * 100 = 10000 / 3 := by norm_num
  rw [harg, roundHalfEven_tenThousandThirds]
  norm_num

/-- Claim C4, counterexample: The claim says the daily `std` is the POPULATION
standard deviation (dividing by `n`) and that `cv` EQUALS `std/mean × 100`.
On the group {0, 2} the code's `std` squares to the sample variance 2
while the population standard deviation squares to 1; since both standard
deviations are nonnegative, unequal squares mean unequal values, so the
code's `std` is not the population standard deviation.  And on the group
{5, 5, 5, 9} — where the code's std is exactly 2 and the mean 6, so
`std/mean × 100 = 100/3` — the code's cv column is 33.33 (= 3333/100),
the two-decimal rounding of 100/3, not 100/3 itself: the cv clause fails
without the rounding amendment. -/
theorem dailyStats_popStd_false :
    (dailyStats exGluTable).map (·.stdSq_glucose) = [2] ∧
    popVar (groupValues (validGlucose exGluTable) "E1" 10) = 1 ∧
    (2 : ℚ) ≠ 1 ∧
    (dailyStats exCvTable).map (·.stdSq_glucose) = [4] ∧
    (dailyStats exCvTable).map (·.mean_glucose) = [6] ∧
    (dailyStats exCvTable).map (·.cv_glucose) = [3333 / 100] ∧
    Real.sqrt ((4 : ℚ) : ℝ) / ((6 : ℚ) : ℝ) * 100 = 100 / 3 ∧
    (3333 / 100 : ℚ) ≠ 100 / 3 := by
  have hmean : listMean [0, 2] = 1 := by
    norm_num [listMean, List.sum_cons, List.sum_nil]
  have hsv : sampleVar [0, 2] = 2 := by
    norm_num [sampleVar, hmean, List.sum_cons, List.sum_nil]
  have hpv : popVar [0, 2] = 1 := by
    norm_num [popVar, hmean, List.sum_cons, List.sum_nil]
  have hg : groupValues (validGlucose exGluTable) "E1" 10 = [0, 2] := rfl
  have hmap : (dailyStats exGluTable).map (·.stdSq_glucose) =
      [sampleVar [0, 2]] := rfl
  have hmap2 : (dailyStats exCvTable).map (·.stdSq_glucose) =
      [sampleVar [5, 5, 5, 9]] := rfl
  have hmap3 : (dailyStats exCvTable).map (·.mean_glucose) =
      [listMean [5, 5, 5, 9]] := rfl
  have hmap4 : (dailyStats exCvTable).map (·.cv_glucose) =
      [cvRat [5, 5, 5, 9]] := rfl
  have hs : Real.sqrt ((4 : ℚ) : ℝ) = 2 := by
    have h4 : ((4 : ℚ) : ℝ) = (2 : ℝ) ^ 2 := by norm_num
    rw [h4, Real.sqrt_sq (by norm_num : (0 : ℝ) ≤ 2)]
  refine ⟨?_, ?_, by norm_num, ?_, ?_, ?_, ?_, by norm_num⟩
  · rw [hmap, hsv]
  · rw [hg, hpv]
  · rw [hmap2, sampleVar_exCv]
  · rw [hmap3, listMean_exCv]
  · rw [hmap4, cvRat_exCv]
  · rw [hs]
    norm_num

/-! ### Step 7: next-day outcome labeling -/

/-- The left-join on `(admission_key, next_date)` of
`process_glucose_data`: the row of the same key dated one calendar day
later, when present.  The groupby guarantees at most one row per
(key, date), so `find?` is the lookup. -/
def findNext (t : List DailyStat) (k : String) (d : Nat) : Option DailyStat :=
  t.find? fun s => decide (s.admission_key = k ∧ s.date = d + 1)

/-- Embeds `classify_outcome`: `NaN` next-day data gives no label;
otherwise 0 (低血糖/Hypoglycemia) when next-day min `< 3.9`, else 2
(高血糖/Hyperglycemia) when next-day max `> 13.9`, else 1
(正常/Normal). -/
def classifyOutcome (next : Option DailyStat) : Option Nat :=
  match next with
  | none => none
  | some n =>
    some (if n.min_glucose < 39/10 then 0
          else if (139/10 : ℚ) < n.max_glucose then 2 else 1)

/-- The outcome of one daily row against the whole daily table. -/
def labelOf (t : List DailyStat) (s : DailyStat) : Option Nat :=
  classifyOutcome (findNext t s.admission_key s.date)

/-- The labeled daily table: rows without a next-day label are dropped
(`daily_glucose[daily_glucose['outcome'].notna()]`). -/
def labelDaily (t : List DailyStat) : List (DailyStat × Nat) :=
  t.filterMap fun s => (labelOf t s).map fun o => (s, o)

/-- Claim C1: For every daily row with a next-calendar-date row of the same
EpisodeKey, the outcome is 0 (Hypoglycemia) when the next day's min is
`< 3.9` — evaluated strictly before the hyperglycemia test, so this holds
even when the next day's max is also `> 13.9` — else 2 (Hyperglycemia)
when the next day's max is `> 13.9`, else 1 (Normal); a row with no
next-calendar-date row is dropped from the output. -/
theorem outcomeLabel_correct (t : List DailyStat) (s : DailyStat)
    (hs : s ∈ t) :
    (∀ n, findNext t s.admission_key s.date = some n →
      ((n.min_glucose < 39/10 → (s, 0) ∈ labelDaily t) ∧
       (¬ n.min_glucose < 39/10 → (139/10 : ℚ) < n.max_glucose →
         (s, 2) ∈ labelDaily t) ∧
       (¬ n.min_glucose < 39/10 → ¬ (139/10 : ℚ) < n.max_glucose →
         (s, 1) ∈ labelDaily t))) ∧
    (findNext t s.admission_key s.date = none →
      ∀ o, (s, o) ∉ labelDaily t) := by
  have hmem : ∀ o, labelOf t s = some o → (s, o) ∈ labelDaily t := by
    intro o ho
    apply List.mem_filterMap.2
    exact ⟨s, hs, by rw [ho]; rfl⟩
  constructor
  · intro n hn
    refine ⟨?_, ?_, ?_⟩
    · intro h1
      apply hmem
      rw [labelOf, hn, classifyOutcome, if_pos h1]
    · intro h1 h2
      apply hmem
      rw [labelOf, hn, classifyOutcome, if_neg h1, if_pos h2]
    · intro h1 h2
      apply hmem
      rw [labelOf, hn, classifyOutcome, if_neg h1, if_neg h2]
  · intro hn o hmem'
    rcases List.mem_filterMap.1 hmem' with ⟨s', hs', heq⟩
    rcases Option.map_eq_some'.1 heq with ⟨o', ho', hpair⟩
    have hss : s' = s ∧ o' = o := by
      simpa [Prod.mk.injEq] using hpair
    rw [hss.1, labelOf, hn] at ho'
    cases ho'

/-- The spec's outcome-labeling example: EpisodeKey E1, day 2024-03-01
with glucose min 5 / max 10 (mean, squared std, count and a nominal
rounded cv filled in consistently; the labeling theorem reads only the
key, date, min and max fields). -/
def specE1Day1 : DailyStat :=
  ⟨"E1", daysFromCivil 2024 3 1, 5, 10, 15/2, 25/2, 2, 4714/100⟩

/-- Day 2024-03-02 of the same episode: min 3.5, max 14 — both the
hypoglycemia and the hyperglycemia condition hold. -/
def specE1Day2 : DailyStat :=
  ⟨"E1", daysFromCivil 2024 3 2, 7/2, 14, 35/4, 441/8, 2, 8485/100⟩

def specE1Table : List DailyStat := [specE1Day1, specE1Day2]

theorem outcomeLabel_correct_witness :
    findNext specE1Table "E1" (daysFromCivil 2024 3 1) = some specE1Day2 ∧
    (specE1Day1, 0) ∈ labelDaily specE1Table :=
  ⟨rfl,
   ((outcomeLabel_correct specE1Table specE1Day1
       (List.mem_cons_self _ _)).1 specE1Day2 rfl).1 (by norm_num [specE1Day2])⟩

/-! ### Step 7: boundary trimming -/

/-- The episode key of a labeled daily row. -/
def rowKey (r : DailyStat × Nat) : String := r.1.admission_key

/-- Rows of one episode key in a labeled table
(`groupby('admission_key')...transform('count')`). -/
def keyCount (t : List (DailyStat × Nat)) (k : String) : Nat :=
  t.countP fun r => decide (rowKey r = k)

/-- Incrementing one key's running count (the per-group `cumcount`
accumulator). -/
def bump (seen : String → Nat) (k0 : String) : String → Nat :=
  fun k => if k = k0 then seen k + 1 else seen k

theorem bump_self (seen : String → Nat) (k0 : String) :
    bump seen k0 k0 = seen k0 + 1 := by
  simp [bump]

theorem bump_other (seen : String → Nat) (k0 k : String) (h : ¬ k = k0) :
    bump seen k0 k = seen k := by
  simp [bump, h]

/-- Embeds the `day_seq`/`total_days` filter of `build_timeseries_dataset`
(lines 451-459): walking the table in order while counting rows seen per
key (`cumcount() + 1`), a row is kept iff `1 < day_seq` and
`day_seq < total_days`. -/
def trimGo (total seen : String → Nat) :
    List (DailyStat × Nat) → List (DailyStat × Nat)
  | [] => []
  | r :: rs =>
    let rest := trimGo total (bump seen (rowKey r)) rs
    if 1 < seen (rowKey r) + 1 ∧ seen (rowKey r) + 1 < total (rowKey r) then
      r :: rest
    else rest

/-- Boundary trimming: drop the first and last day-sequence row of every
episode key. -/
def trimBoundaryDays (t : List (DailyStat × Nat)) : List (DailyStat × Nat) :=
  trimGo (keyCount t) (fun _ => 0) t

/-- How many of the day-sequence numbers `c+1, …, c+m` satisfy
`1 < s < n`. -/
def countKeep : Nat → Nat → Nat → Nat
  | _, 0, _ => 0
  | c, m + 1, n => (if 1 < c + 1 ∧ c + 1 < n then 1 else 0) + countKeep (c + 1) m n

theorem countKeep_closed : ∀ (m c n : Nat), c + m = n →
    countKeep c m n = if c = 0 then n - 2 else n - c - 1 := by
  intro m
  induction m with
  | zero =>
    intro c n h
    simp only [countKeep]
    rcases Nat.eq_zero_or_pos c with hc | hc
    · rw [if_pos hc]
      omega
    · rw [if_neg (by omega : ¬ c = 0)]
      omega
  | succ m ih =>
    intro c n h
    simp only [countKeep]
    rw [ih (c + 1) n (by omega)]
    rw [if_neg (by omega : ¬ c + 1 = 0)]
    rcases Nat.eq_zero_or_pos c with hc | hc
    · subst hc
      rw [if_neg (by omega : ¬ (1 < 0 + 1 ∧ 0 + 1 < n)), if_pos rfl]
      omega
    · rw [if_neg (by omega : ¬ c = 0)]
      by_cases hB : c + 1 < n
      · rw [if_pos (⟨by omega, hB⟩ : 1 < c + 1 ∧ c + 1 < n)]
        omega
      · rw [if_neg (fun hAnd => hB hAnd.2)]
        omega

theorem trimGo_sublist (t : List (DailyStat × Nat)) :
    ∀ total seen : String → Nat, (trimGo total seen t).Sublist t := by
  induction t with
  | nil => intro total seen; exact List.Sublist.refl []
  | cons r rs ih =>
    intro total seen
    rw [trimGo]
    split_ifs
    · exact List.Sublist.cons₂ r (ih total _)
    · exact List.Sublist.cons r (ih total _)

theorem keyCount_trimGo (t : List (DailyStat × Nat)) :
    ∀ (total seen : String → Nat) (k : String),
      keyCount (trimGo total seen t) k =
        countKeep (seen k) (keyCount t k) (total k) := by
  induction t with
  | nil => intro total seen k; rfl
  | cons r rs ih =>
    intro total seen k
    simp only [trimGo]
    by_cases hk : rowKey r = k
    · subst hk
      have hcnt : keyCount (r :: rs) (rowKey r) = keyCount rs (rowKey r) + 1 := by
        simp [keyCount, List.countP_cons]
      rw [hcnt, countKeep]
      by_cases hcond : 1 < seen (rowKey r) + 1 ∧
          seen (rowKey r) + 1 < total (rowKey r)
      · rw [if_pos hcond, if_pos hcond]
        have hx : keyCount (r :: trimGo total (bump seen (rowKey r)) rs)
            (rowKey r) =
            keyCount (trimGo total (bump seen (rowKey r)) rs) (rowKey r) + 1 := by
          simp [keyCount, List.countP_cons]
        rw [hx, ih, bump_self]
        omega
      · rw [if_neg hcond, if_neg hcond]
        rw [ih, bump_self]
        omega
    · have hne : ¬ (k = rowKey r) := fun h => hk h.symm
      have hcnt : keyCount (r :: rs) k = keyCount rs k := by
        simp [keyCount, List.countP_cons, hk]
      rw [hcnt]
      by_cases hcond : 1 < seen (rowKey r) + 1 ∧
          seen (rowKey r) + 1 < total (rowKey r)
      · rw [if_pos hcond]
        have hx : keyCount (r :: trimGo total (bump seen (rowKey r)) rs) k =
            keyCount (trimGo total (bump seen (rowKey r)) rs) k := by
          simp [keyCount, List.countP_cons, hk]
        rw [hx, ih, bump_other seen (rowKey r) k hne]
      · rw [if_neg hcond]
        rw [ih, bump_other seen (rowKey r) k hne]

/-- Claim C3: Boundary trimming keeps a subsequence of the labeled table and
retains, for every EpisodeKey with `n` labeled days, exactly
`n - 2` rows in truncated subtraction — i.e. `max(n - 2, 0)`: 3 labeled
days leave 1 row, and 1 or 2 labeled days leave 0 rows. -/
theorem boundaryTrim_counts (t : List (DailyStat × Nat)) (k : String) :
    keyCount (trimBoundaryDays t) k = keyCount t k - 2 ∧
    (trimBoundaryDays t).Sublist t := by
  constructor
  · rw [trimBoundaryDays, keyCount_trimGo]
    rw [countKeep_closed (keyCount t k) 0 (keyCount t k) (by omega)]
    simp
  · exact trimGo_sublist t (keyCount t) (fun _ => 0)

/-! ### Step 7: the binarized (two-class) view -/

/-- Embeds the HYPO binarization of `main` (lines 532-541):
`outcome_HYPO = 1 if outcome == 0 else 0`, the three-class column is
dropped and the new column takes its place; every other column is
copied unchanged. -/
def binarizeOutcome (t : List (DailyStat × Nat)) : List (DailyStat × Nat) :=
  t.map fun r => (r.1, if r.2 = 0 then 1 else 0)

/-- Claim C10: The binarized table has exactly the rows of the three-class
table in order: position by position all columns other than the outcome
are identical, and the new outcome is 1 iff the three-class outcome was 0
(Hypoglycemia), 0 otherwise (collapsing Normal and Hyperglycemia). -/
theorem binarize_correct (t : List (DailyStat × Nat)) :
    (binarizeOutcome t).length = t.length ∧
    ∀ p ∈ t.zip (binarizeOutcome t),
      p.2.1 = p.1.1 ∧ (p.2.2 = 1 ↔ p.1.2 = 0) ∧ (p.1.2 ≠ 0 → p.2.2 = 0) := by
  constructor
  · exact List.length_map t _
  · induction t with
    | nil => intro p hp; cases hp
    | cons r rs ih =>
      intro p hp
      rw [binarizeOutcome, List.map_cons] at hp
      rcases List.mem_cons.1 hp with rfl | hp'
      · refine ⟨rfl, ?_, ?_⟩
        · by_cases h0 : r.2 = 0
          · simp [h0]
          · simp [h0]
        · intro h0
          simp [h0]
      · exact ih p hp'

def exBinRow : DailyStat × Nat := (specE1Day1, 0)

def exBinTable : List (DailyStat × Nat) := [exBinRow]

theorem binarize_correct_witness :
    ((exBinRow, (specE1Day1, 1)) ∈
        exBinTable.zip (binarizeOutcome exBinTable)) ∧
    ((exBinRow, (specE1Day1, 1)).2.1 = (exBinRow, (specE1Day1, 1)).1.1 ∧
      ((exBinRow, (specE1Day1, 1)).2.2 = 1 ↔
        (exBinRow, (specE1Day1, 1)).1.2 = 0) ∧
      ((exBinRow, (specE1Day1, 1)).1.2 ≠ 0 →
        (exBinRow, (specE1Day1, 1)).2.2 = 0)) :=
  ⟨List.mem_cons_self _ _,
   (binarize_correct exBinTable).2 (exBinRow, (specE1Day1, 1))
     (List.mem_cons_self _ _)⟩

end BGA
